import Mathlib

/-!
Verification of the entry-reconciliation core of stabbie, a small fstab
auto-mount tool.  The development shallowly embeds the Python source:

  * src/stabbie/fstab/entry/fstab_entry_builder.py  (FstabEntryBuilder.from_line)
  * src/stabbie/fstab/entry/fstab_entry.py          (FstabEntry, __str__)
  * src/stabbie/fstab/entry/nfs_fstab_entry.py      (NfsFstabEntry.__post_init__,
                                                     NfsMountOptions.from_entry)
  * src/stabbie/fstab/entry/remote_fstab_entry.py   (RemoteFstabEntry.refresh_mount_point)
  * src/stabbie/fstab/entry/service.py              (Service.new_cached,
                                                     Service.check_is_connectable)
  * src/stabbie/stabbie.py                          (Application.fstab_entries_filter_key,
                                                     Application.run)

Python strings are modelled as lists of characters (Str).  The string
primitives the source uses -- re.split on a tab-or-space alternation,
str.split, str.rsplit with maxsplit 1, join, int(), str() -- are given
executable structural models below.  Fallible Python code (ValueError
from unpacking or from int()) is modelled with Option: a result of none
means the corresponding Python call raises.
-/

/-- Python strings, modelled as lists of characters. -/
abbrev Str := List Char

/-- Helper for pySplitP: prepend a character to the first segment of a
segment list (used when the current character is not a separator). -/
def consFirst (c : Char) : List Str → List Str
  | [] => [[c]]
  | s :: ss => (c :: s) :: ss

/-- Model of splitting a string at every single character satisfying p,
keeping empty segments.  With p matching tab or space this is
re.split of the alternation of tab and space, as used by
FstabEntryBuilder.from_line; with p matching one given character it is
Python str.split with a one-character separator. -/
def pySplitP (p : Char → Bool) : Str → List Str
  | [] => [[]]
  | c :: rest =>
    if p c then [] :: pySplitP p rest
    else consFirst c (pySplitP p rest)

/-- Python s.split(sep) for a one-character separator sep. -/
def pySplitChar (c : Char) (s : Str) : List Str :=
  pySplitP (fun x => x == c) s

/-- Python sep.join(parts) for a one-character separator. -/
def joinSep (c : Char) : List Str → Str
  | [] => []
  | [s] => s
  | s :: s2 :: ss => s ++ c :: joinSep c (s2 :: ss)

/-- Python s.split(sep, maxsplit=1) unpacked into exactly two variables:
some (before, after) splits at the first occurrence of c; none means the
separator is absent and the unpacking raises ValueError. -/
def splitOnceL (c : Char) : Str → Option (Str × Str)
  | [] => none
  | x :: rest =>
    if x = c then some ([], rest)
    else (splitOnceL c rest).map (fun pr => (x :: pr.1, pr.2))

/-- Python s.rsplit(sep, maxsplit=1) unpacked into exactly two variables:
some (before, after) splits at the last occurrence of c; none means the
separator is absent and the unpacking raises ValueError. -/
def rsplitOnce (c : Char) : Str → Option (Str × Str)
  | [] => none
  | x :: rest =>
    match rsplitOnce c rest with
    | some pr => some (x :: pr.1, pr.2)
    | none => if x = c then some ([], rest) else none

/-- Numeric value of a decimal digit character. -/
def digitVal (c : Char) : Nat := c.toNat - 48

/-- Digit-run acceptor of Python int(): after the first digit, single
underscores are allowed between digits ("1_0" parses, "1__0", "1_" do
not).  Accumulates the value; none models a ValueError. -/
def pyDigitsCore (acc : Nat) : Str → Option Nat
  | [] => some acc
  | c :: rest =>
    if c = '_' then
      match rest with
      | c2 :: rest2 =>
        if c2.isDigit then pyDigitsCore (acc * 10 + digitVal c2) rest2 else none
      | [] => none
    else if c.isDigit then pyDigitsCore (acc * 10 + digitVal c) rest else none

/-- Unsigned part of Python int(): at least one digit, which must come
first. -/
def pyNat : Str → Option Nat
  | [] => none
  | c :: rest => if c.isDigit then pyDigitsCore (digitVal c) rest else none

/-- Model of Python int(s) on the strings reachable in this program
(whitespace-free, since every parsed token comes from splitting on
whitespace): an optional single sign followed by digits; none models the
ValueError raised on malformed input. -/
def pyInt : Str → Option Int
  | [] => none
  | c :: rest =>
    if c = '-' then
      match pyNat rest with
      | none => none
      | some n => some (-(n : Int))
    else if c = '+' then
      match pyNat rest with
      | none => none
      | some n => some ((n : Int))
    else
      match pyNat (c :: rest) with
      | none => none
      | some n => some ((n : Int))

/-- Fuel-driven big-endian decimal digit writer (the fuel makes the
definition structurally recursive, so it evaluates inside the kernel). -/
def natDigitsAux : Nat → Nat → Str → Str
  | 0, _, acc => acc
  | fuel + 1, n, acc =>
    if n < 10 then Char.ofNat (48 + n) :: acc
    else natDigitsAux fuel (n / 10) (Char.ofNat (48 + n % 10) :: acc)

/-- Canonical decimal digits of a natural number, most significant
first. -/
def natDigits (n : Nat) : Str := natDigitsAux (n + 1) n []

/-- Model of Python str(i) for an int: canonical decimal form, with a
leading minus sign for negative values. -/
def pyStrInt (i : Int) : Str :=
  if i < 0 then '-' :: natDigits i.natAbs else natDigits i.toNat

/-- Python dict built by repeated d[key] = value assignments, queried
with d.get(key): the value of the latest assignment with that key. -/
def dictGet (m : List (Str × Str)) (k : Str) : Option Str :=
  (m.reverse.find? (fun pr => pr.1 == k)).map (fun pr => pr.2)

/-! ## Data model

The entry class hierarchy (FstabEntry, its abstract subclass
RemoteFstabEntry, and the latter's only concrete subclass NfsFstabEntry)
is flattened into one structure with a kind discriminant; the fields
derived by NfsFstabEntry.__post_init__ (service, remote_path) are Option,
none on generic entries. -/

/-- The separator characters of FstabEntryBuilder.from_line's
re.split pattern of a tab or a space. -/
def isSepChar (c : Char) : Bool := c == '\t' || c == ' '

/-- A mount point, identified by its path (MountPoint in
src/stabbie/fstab/mount_point.py; the unmount force and lazy flags are
class constants not touched by the claims). -/
structure MountPoint where
  path : Str
deriving DecidableEq

/-- Discriminant for the entry class: FstabEntry, or its remote subclass
NfsFstabEntry (the only concrete RemoteFstabEntry). -/
inductive EntryKind
  | generic
  | nfs
deriving DecidableEq

/-- A parsed fstab entry (FstabEntry dataclass, flattened together with
the NfsFstabEntry-specific derived fields).  mount_options is the
sequence built by splitting the options token on commas; the Python
corner case where a line has no options token and mount_options is the
empty string is modelled as the empty list, an identical empty
sequence. -/
structure FstabEntry where
  name : Str
  mount_point : MountPoint
  fs_type : Str
  mount_options : List Str
  dump_frequency : Int
  fsck_pass_number : Int
  kind : EntryKind
  service : Option (Str × Int)
  remote_path : Option Str
deriving DecidableEq

/-- NFS connection parameters derived from an entry's mount options
(NfsMountOptions dataclass). -/
structure NfsMountOptions where
  version : Int
  port : Int
deriving DecidableEq

/-- The literal "nfs" filesystem type. -/
def nfsStr : Str := ['n', 'f', 's']

/-- The literal "version" option key. -/
def versionKey : Str := ['v', 'e', 'r', 's', 'i', 'o', 'n']

/-- The literal "port" option key. -/
def portKey : Str := ['p', 'o', 'r', 't']

/-- Model of NfsMountOptions.from_entry restricted to its only input,
the entry's mount-option sequence.  Each option is split once on an
equals sign; options without one raise ValueError inside the try and are
skipped (continue).  version comes from the mapping with default 3, the
default port is 2049 exactly when version is 4 and 0 otherwise, and an
explicit port option overrides it.  none models the ValueError of int()
on a non-numeric version or port value. -/
def NfsMountOptions.from_options (options : List Str) : Option NfsMountOptions :=
  let mapping := options.filterMap (splitOnceL '=')
  let versionRes : Option Int :=
    match dictGet mapping versionKey with
    | none => some 3
    | some v => pyInt v
  match versionRes with
  | none => none
  | some version =>
    let default_port : Int := if version = 4 then 2049 else 0
    let portRes : Option Int :=
      match dictGet mapping portKey with
      | none => some default_port
      | some v => pyInt v
    match portRes with
    | none => none
    | some port => some ⟨version, port⟩

/-- Model of NfsFstabEntry.__post_init__: the name is rsplit once on a
colon into host and remote path (none models the ValueError when the
name has no colon), the NFS options are resolved, and the interned
service reference (host together with the derived port) and the remote
path are stored on the entry. -/
def nfs_post_init (e : FstabEntry) : Option FstabEntry :=
  match rsplitOnce ':' e.name with
  | none => none
  | some (host, remote_path) =>
    match NfsMountOptions.from_options e.mount_options with
    | none => none
    | some options =>
      some { e with service := some (host, options.port), remote_path := some remote_path }

/-- The token list of a line as computed by FstabEntryBuilder.from_line:
re.split on the tab-or-space alternation, dropping empty segments. -/
def segmentsOf (line : Str) : List Str :=
  (pySplitP isSepChar line).filter (fun s => decide (s ≠ []))

/-- The mount-option sequence from the optional tokens: the first
optional token split on commas, or the empty sequence when absent. -/
def optionsOfSegs : List Str → List Str
  | [] => []
  | o :: _ => pySplitChar ',' o

/-- The dump-frequency token (optionals index 1), when present. -/
def dumpTok : List Str → Option Str
  | _ :: d :: _ => some d
  | _ => none

/-- The fsck-pass token (optionals index 2), when present. -/
def fsckTok : List Str → Option Str
  | _ :: _ :: f :: _ => some f
  | _ => none

/-- The value of one numeric optional field: the dataclass default 0
when the token is absent, otherwise Python int() of the token (none
models the ValueError on a non-numeric token). -/
def intFieldOr0 : Option Str → Option Int
  | none => some 0
  | some tok => pyInt tok

/-- Model of FstabEntryBuilder.from_line.  none models an uncaught
ValueError: fewer than the three mandatory tokens to unpack, a
non-numeric dump-frequency or fsck-pass token, or a failure inside
NfsFstabEntry.__post_init__ when the type token is nfs. -/
def from_line (line : Str) : Option FstabEntry :=
  match segmentsOf line with
  | name :: mount_point_path :: fs_type :: optionals =>
    let mount_options := optionsOfSegs optionals
    match intFieldOr0 (dumpTok optionals), intFieldOr0 (fsckTok optionals) with
    | some dump_frequency, some fsck_pass_number =>
      let base : FstabEntry :=
        { name := name
          mount_point := ⟨mount_point_path⟩
          fs_type := fs_type
          mount_options := mount_options
          dump_frequency := dump_frequency
          fsck_pass_number := fsck_pass_number
          kind := if fs_type = nfsStr then EntryKind.nfs else EntryKind.generic
          service := none
          remote_path := none }
      if fs_type = nfsStr then nfs_post_init base else some base
    | _, _ => none
  | _ => none

/-- Model of FstabEntry.__str__: the six fields joined by single spaces,
with the option sequence joined by commas and the numeric fields
rendered by str(). -/
def FstabEntry.toLine (e : FstabEntry) : Str :=
  joinSep ' '
    [e.name, e.mount_point.path, e.fs_type,
     joinSep ',' e.mount_options,
     pyStrInt e.dump_frequency, pyStrInt e.fsck_pass_number]

/-! ## Reconciliation engine -/

/-- A call made to the mount point controller. -/
inductive MountCall
  | mount
  | unmount
deriving DecidableEq

/-- Model of RemoteFstabEntry.refresh_mount_point as a function of the
two booleans it reads (the cached service connectivity verdict and the
fresh mount state), returning the list of mount point controller calls
it performs, in order.  The if-cascade mirrors the source. -/
def refresh_mount_point (service_ok mounted : Bool) : List MountCall :=
  if service_ok && mounted then []
  else if !service_ok && !mounted then []
  else if service_ok && !mounted then [MountCall.mount]
  else if !service_ok && mounted then [MountCall.unmount]
  else []

/-- The literal x-stabbie eligibility-marker mount option
(Application.stabbie_mount_option). -/
def stabbie_mount_option : Str := ['x', '-', 's', 't', 'a', 'b', 'b', 'i', 'e']

/-- Model of isinstance(entry, RemoteFstabEntry) on entries built by
FstabEntryBuilder: NfsFstabEntry is the only concrete subclass of the
abstract RemoteFstabEntry, so the check holds exactly for nfs-kind
entries. -/
def is_remote_instance (e : FstabEntry) : Bool :=
  match e.kind with
  | EntryKind.nfs => true
  | EntryKind.generic => false

/-- Model of Application.fstab_entries_filter_key: keep only remote
entries whose option sequence contains the eligibility marker. -/
def fstab_entries_filter_key (e : FstabEntry) : Bool :=
  is_remote_instance e && e.mount_options.contains stabbie_mount_option

/-- The entries Application.run hands to the pool: the fstab entries
filtered by fstab_entries_filter_key. -/
def Application.eligible (entries : List FstabEntry) : List FstabEntry :=
  entries.filter fstab_entries_filter_key

/-- The per-entry refresh work of one run: every eligible entry is
refreshed, producing its mount point controller calls from its service
connectivity and current mount state; non-eligible entries are never
handed to refresh_remote_fstab_entry, so neither their service nor their
mount point is ever touched. -/
def runTrace (entries : List FstabEntry) (conn mounted : FstabEntry → Bool) :
    List (FstabEntry × List MountCall) :=
  (Application.eligible entries).map (fun e => (e, refresh_mount_point (conn e) (mounted e)))

/-- Python exceptions relevant to the run. -/
inductive PyErr
  | mountError
  | unmountError
  | gaierror
deriving DecidableEq

/-- What Application.run leaves behind: the per-entry refresh outcomes
produced inside the pool workers, the contents of the private
refresh-errors list when the summary block runs, and whether the
aggregate warning was emitted. -/
structure RunSummary where
  per_entry : List (FstabEntry × Except PyErr Unit)
  refresh_errors : List PyErr
  summary_reported : Bool

/-- Model of the error handling of Application.run.  run calls
pool.map_async with only the function and the filtered iterable: no
error_callback is passed (refresh_error_callback is defined on the class
but never registered) and the AsyncResult is never read, so exceptions
raised by refresh_mount_point inside the workers are never delivered
anywhere, the private refresh-errors list stays empty, and the summary
warning (which fires only on a non-empty list) is never emitted. -/
def Application.run_summary (entries : List FstabEntry)
    (outcome : FstabEntry → Except PyErr Unit) : RunSummary :=
  let refresh_errors : List PyErr := []
  { per_entry := (Application.eligible entries).map (fun e => (e, outcome e))
    refresh_errors := refresh_errors
    summary_reported := decide (refresh_errors.length > 0) }

/-! ## Service reachability -/

/-- Model of Service.__str__: the host, a colon, and the decimal
port. -/
def serviceStr (s : Str × Int) : Str := s.1 ++ ':' :: pyStrInt s.2

/-- Model of Service.__eq__ (and the equality behind Service.__hash__):
two services are equal exactly when their host:port string forms are
equal. -/
def serviceEqStr (a b : Str × Int) : Bool := serviceStr a == serviceStr b

/-- Model of Service.new_cached, a functools.cache-decorated
constructor: the registry maps each distinct argument pair to the
identity (an index) of the Service instance created for it; a repeated
argument pair returns the existing instance, a new pair registers a
fresh one. -/
def Service.new_cached (registry : List ((Str × Int) × Nat)) (args : Str × Int) :
    Nat × List ((Str × Int) × Nat) :=
  match registry.find? (fun pr => pr.1 == args) with
  | some pr => (pr.2, registry)
  | none => (registry.length, registry ++ [(args, registry.length)])

/-- State of the functools.lru_cache(maxsize=1) sitting on
Service.check_is_connectable.  The decorator wraps the single underlying
function object, so one cache of capacity one is shared by every Service
instance, keyed by the receiver (compared via Service.__eq__, i.e. the
host:port string).  probes records every TCP probe actually issued. -/
structure CheckCacheState where
  cached : Option ((Str × Int) × Bool)
  probes : List (Str × Int)

/-- Model of one call to Service.check_is_connectable through its
lru_cache(maxsize=1) wrapper: a hit on the single cached receiver
returns the cached verdict; any other receiver evicts the previous entry,
issues a fresh TCP probe (net gives the probe's verdict), and caches the
result. -/
def check_is_connectable_cached (net : Str × Int → Bool) (st : CheckCacheState)
    (s : Str × Int) : Bool × CheckCacheState :=
  match st.cached with
  | some (k, v) =>
    if serviceEqStr k s then (v, st)
    else
      let r := net s
      (r, ⟨some (s, r), st.probes ++ [s]⟩)
  | none =>
    let r := net s
    (r, ⟨some (s, r), st.probes ++ [s]⟩)

/-- A sequence of reachability queries folded through the shared
lru_cache state. -/
def runConnectQueries (net : Str × Int → Bool) :
    CheckCacheState → List (Str × Int) → CheckCacheState
  | st, [] => st
  | st, s :: rest => runConnectQueries net (check_is_connectable_cached net st s).2 rest

/-- Outcome of the socket.create_connection call (with all_errors set to
true) inside Service.check_is_connectable, following CPython: a
successful connection returns the socket; failures of the per-address
connect attempts are collected and raised together as an ExceptionGroup;
an address-resolution failure (socket.getaddrinfo raising, e.g. on a DNS
failure) is raised directly, before any connect attempt, and is not
wrapped in an ExceptionGroup. -/
inductive ConnectOutcome
  | connected
  | wrappedFailure
  | resolutionFailure
deriving DecidableEq

/-- Model of the body of Service.check_is_connectable: the try block
returns true on a successful connection, the sole except clause catches
ExceptionGroup and returns false, and any other exception -- such as the
unwrapped socket.gaierror of a resolution failure -- propagates to the
caller. -/
def check_is_connectable_body (outcome : ConnectOutcome) : Except PyErr Bool :=
  match outcome with
  | ConnectOutcome.connected => Except.ok true
  | ConnectOutcome.wrappedFailure => Except.ok false
  | ConnectOutcome.resolutionFailure => Except.error PyErr.gaierror

/-! ## Auxiliary definitions used by the theorems -/

/-- Value of a digit string read left to right onto an initial
accumulator. -/
def decVal (a : Nat) (s : Str) : Nat :=
  s.foldl (fun acc c => acc * 10 + digitVal c) a

/-- Some option of the list is in key=value form with the given key. -/
def hasEqKey (options : List Str) (k : Str) : Prop :=
  ∃ o ∈ options, ∃ pr, splitOnceL '=' o = some pr ∧ pr.1 = k

/-- Failure condition of from_line on a tokenized line: fewer than the
three mandatory tokens, a present but non-numeric dump-frequency or
fsck-pass token, or an nfs-typed line whose name has no colon or whose
option list fails NFS option resolution. -/
def parseFailureSpec (segs : List Str) : Prop :=
  match segs with
  | name :: _ :: fs_type :: optionals =>
    (∃ d, dumpTok optionals = some d ∧ pyInt d = none) ∨
    (∃ f, fsckTok optionals = some f ∧ pyInt f = none) ∨
    (fs_type = nfsStr ∧
      (':' ∉ name ∨ NfsMountOptions.from_options (optionsOfSegs optionals) = none))
  | _ => True

/-! ## Lemmas about the string splitting models -/

theorem pySplitP_ne_nil (p : Char → Bool) (s : Str) : pySplitP p s ≠ [] := by
  induction s with
  | nil => simp [pySplitP]
  | cons c rest ih =>
    simp only [pySplitP]
    by_cases h : p c
    · simp [h]
    · simp only [h, if_false, Bool.false_eq_true]
      cases hr : pySplitP p rest with
      | nil => exact absurd hr ih
      | cons s0 ss => simp [consFirst]

theorem joinSep_cons_ne (c : Char) (s : Str) (l : List Str) (h : l ≠ []) :
    joinSep c (s :: l) = s ++ c :: joinSep c l := by
  cases l with
  | nil => exact absurd rfl h
  | cons t ts => rfl

theorem joinSep_consFirst (c x : Char) (l : List Str) (h : l ≠ []) :
    joinSep c (consFirst x l) = x :: joinSep c l := by
  cases l with
  | nil => exact absurd rfl h
  | cons s ss =>
    cases ss with
    | nil => rfl
    | cons t ts => rfl

theorem joinSep_pySplitChar (c : Char) (s : Str) :
    joinSep c (pySplitChar c s) = s := by
  induction s with
  | nil => rfl
  | cons x rest ih =>
    simp only [pySplitChar, pySplitP] at ih ⊢
    by_cases h : x = c
    · subst h
      simp only [beq_self_eq_true, if_true]
      rw [joinSep_cons_ne _ _ _ (pySplitP_ne_nil _ _), ih]
      rfl
    · have hb : (x == c) = false := by simp [h]
      simp only [hb, if_false, Bool.false_eq_true]
      rw [joinSep_consFirst _ _ _ (pySplitP_ne_nil _ _), ih]

theorem pySplitP_sepFree (p : Char → Bool) (s : Str) (h : ∀ c ∈ s, p c = false) :
    pySplitP p s = [s] := by
  induction s with
  | nil => rfl
  | cons x rest ih =>
    have hx : p x = false := h x (List.mem_cons_self _ _)
    simp only [pySplitP, hx, if_false, Bool.false_eq_true]
    rw [ih (fun c hc => h c (List.mem_cons_of_mem _ hc))]
    rfl

theorem pySplitP_append_sep (p : Char → Bool) (seg : Str) (c : Char) (rest : Str)
    (hc : p c = true) (hseg : ∀ x ∈ seg, p x = false) :
    pySplitP p (seg ++ c :: rest) = seg :: pySplitP p rest := by
  induction seg with
  | nil =>
    simp only [List.nil_append, pySplitP, hc, if_true]
  | cons x xs ih =>
    have hx : p x = false := hseg x (List.mem_cons_self _ _)
    simp only [List.cons_append, pySplitP, hx, if_false, Bool.false_eq_true,
      List.append_eq]
    rw [ih (fun y hy => hseg y (List.mem_cons_of_mem _ hy))]
    rfl

theorem mem_pySplitP_sepFree (p : Char → Bool) :
    ∀ (s seg : Str), seg ∈ pySplitP p s → ∀ c ∈ seg, p c = false := by
  intro s
  induction s with
  | nil =>
    intro seg hseg
    simp [pySplitP] at hseg
    subst hseg
    intro c hc
    exact absurd hc (List.not_mem_nil c)
  | cons x rest ih =>
    intro seg hseg
    simp only [pySplitP] at hseg
    by_cases hx : p x
    · simp only [hx, if_true] at hseg
      rcases List.mem_cons.mp hseg with h1 | h2
      · subst h1; intro c hc; exact absurd hc (List.not_mem_nil c)
      · exact ih seg h2
    · simp only [hx, if_false, Bool.false_eq_true] at hseg
      cases hr : pySplitP p rest with
      | nil => exact absurd hr (pySplitP_ne_nil p rest)
      | cons s0 ss =>
        rw [hr] at hseg
        simp only [consFirst] at hseg
        rcases List.mem_cons.mp hseg with h1 | h2
        · subst h1
          intro c hc
          rcases List.mem_cons.mp hc with h3 | h4
          · subst h3; simpa using hx
          · exact ih s0 (by rw [hr]; exact List.mem_cons_self _ _) c h4
        · exact ih seg (by rw [hr]; exact List.mem_cons_of_mem _ h2)

theorem segmentsOf_joinSep (fs : List Str) (h0 : fs ≠ [])
    (h1 : ∀ f ∈ fs, f ≠ [] ∧ ∀ c ∈ f, isSepChar c = false) :
    segmentsOf (joinSep ' ' fs) = fs := by
  induction fs with
  | nil => exact absurd rfl h0
  | cons f fs ih =>
    obtain ⟨hf, hfsep⟩ := h1 f (List.mem_cons_self _ _)
    cases fs with
    | nil =>
      show segmentsOf (joinSep ' ' [f]) = [f]
      have : joinSep ' ' [f] = f := rfl
      rw [this]
      unfold segmentsOf
      rw [pySplitP_sepFree _ _ hfsep]
      simp [hf]
    | cons g gs =>
      have hjoin : joinSep ' ' (f :: g :: gs) = f ++ ' ' :: joinSep ' ' (g :: gs) := rfl
      rw [hjoin]
      unfold segmentsOf
      rw [pySplitP_append_sep _ _ _ _ (by rfl) hfsep]
      have hrest : segmentsOf (joinSep ' ' (g :: gs)) = g :: gs :=
        ih (by simp) (fun x hx => h1 x (List.mem_cons_of_mem _ hx))
      unfold segmentsOf at hrest
      simpa [List.filter_cons, hf] using hrest

theorem mem_segmentsOf (line : Str) (seg : Str) (h : seg ∈ segmentsOf line) :
    seg ≠ [] ∧ ∀ c ∈ seg, isSepChar c = false := by
  unfold segmentsOf at h
  rw [List.mem_filter] at h
  refine ⟨by simpa using h.2, mem_pySplitP_sepFree _ _ _ h.1⟩

theorem rsplitOnce_none (c : Char) (s : Str) (h : rsplitOnce c s = none) : c ∉ s := by
  induction s with
  | nil => exact List.not_mem_nil c
  | cons x rest ih =>
    simp only [rsplitOnce] at h
    cases hr : rsplitOnce c rest with
    | some pr => rw [hr] at h; exact absurd h (by simp)
    | none =>
      rw [hr] at h
      by_cases hx : x = c
      · rw [if_pos hx] at h; exact absurd h (by simp)
      · intro hmem
        rcases List.mem_cons.mp hmem with h1 | h2
        · exact hx h1.symm
        · exact ih hr h2

theorem rsplitOnce_isSome (c : Char) (s : Str) (h : c ∈ s) :
    (rsplitOnce c s).isSome = true := by
  cases hr : rsplitOnce c s with
  | none => exact absurd h (rsplitOnce_none c s hr)
  | some pr => rfl

theorem rsplitOnce_eq (c : Char) :
    ∀ (s l r : Str), rsplitOnce c s = some (l, r) → s = l ++ c :: r ∧ c ∉ r := by
  intro s
  induction s with
  | nil => intro l r h; exact absurd h (by simp [rsplitOnce])
  | cons x rest ih =>
    intro l r h
    simp only [rsplitOnce] at h
    cases hr : rsplitOnce c rest with
    | some pr =>
      rw [hr] at h
      simp only [Option.some.injEq, Prod.mk.injEq] at h
      obtain ⟨hl, hrr⟩ := h
      obtain ⟨he, hnot⟩ := ih pr.1 pr.2 (by rw [hr])
      subst hl
      subst hrr
      exact ⟨by rw [List.cons_append, ← he], hnot⟩
    | none =>
      rw [hr] at h
      by_cases hx : x = c
      · rw [if_pos hx] at h
        simp only [Option.some.injEq, Prod.mk.injEq] at h
        obtain ⟨hl, hrr⟩ := h
        subst hl
        subst hrr
        subst hx
        exact ⟨rfl, rsplitOnce_none x rest hr⟩
      · rw [if_neg hx] at h
        exact absurd h (by simp)

/-! ## Lemmas about the numeric models -/

theorem digit_isDigit (d : Nat) (h : d < 10) : (Char.ofNat (48 + d)).isDigit = true := by
  interval_cases d <;> decide

theorem digit_val (d : Nat) (h : d < 10) : digitVal (Char.ofNat (48 + d)) = d := by
  interval_cases d <;> decide

theorem isDigit_facts (c : Char) (h : c.isDigit = true) :
    c ≠ '-' ∧ c ≠ '+' ∧ c ≠ '_' ∧ isSepChar c = false := by
  refine ⟨?_, ?_, ?_, ?_⟩
  · intro hc; rw [hc] at h; exact absurd h (by decide)
  · intro hc; rw [hc] at h; exact absurd h (by decide)
  · intro hc; rw [hc] at h; exact absurd h (by decide)
  · by_cases h1 : c = '\t'
    · rw [h1] at h; exact absurd h (by decide)
    · by_cases h2 : c = ' '
      · rw [h2] at h; exact absurd h (by decide)
      · simp [isSepChar, h1, h2]

theorem pyDigitsCore_digits :
    ∀ (s : Str) (a : Nat), (∀ c ∈ s, c.isDigit = true) →
      pyDigitsCore a s = some (decVal a s) := by
  intro s
  induction s with
  | nil => intro a _; rfl
  | cons c rest ih =>
    intro a h
    have hc : c.isDigit = true := h c (List.mem_cons_self _ _)
    have hne : c ≠ '_' := (isDigit_facts c hc).2.2.1
    rw [pyDigitsCore.eq_def]
    simp only [if_neg hne, if_pos hc]
    rw [ih _ (fun x hx => h x (List.mem_cons_of_mem _ hx))]
    rfl

theorem natDigitsAux_acc :
    ∀ (fuel n : Nat) (acc : Str),
      natDigitsAux fuel n acc = natDigitsAux fuel n [] ++ acc := by
  intro fuel
  induction fuel with
  | zero => intro n acc; rfl
  | succ f ih =>
    intro n acc
    simp only [natDigitsAux]
    by_cases h : n < 10
    · simp [h]
    · simp only [h, if_false]
      rw [ih (n / 10) (Char.ofNat (48 + n % 10) :: acc),
          ih (n / 10) [Char.ofNat (48 + n % 10)]]
      simp

theorem natDigitsAux_fuel :
    ∀ (f1 n : Nat), n < f1 → ∀ (f2 : Nat), n < f2 →
      natDigitsAux f1 n [] = natDigitsAux f2 n [] := by
  intro f1
  induction f1 with
  | zero => intro n h; exact absurd h (Nat.not_lt_zero n)
  | succ f ih =>
    intro n hn f2 hf2
    cases f2 with
    | zero => exact absurd hf2 (Nat.not_lt_zero n)
    | succ g =>
      simp only [natDigitsAux]
      by_cases h : n < 10
      · simp [h]
      · simp only [h, if_false]
        have hdiv : n / 10 < n := Nat.div_lt_self (by omega) (by omega)
        rw [natDigitsAux_acc f, natDigitsAux_acc g,
            ih (n / 10) (by omega) g (by omega)]

theorem natDigits_lt10 (n : Nat) (h : n < 10) :
    natDigits n = [Char.ofNat (48 + n)] := by
  simp [natDigits, natDigitsAux, h]

theorem natDigits_ge10 (n : Nat) (h : 10 ≤ n) :
    natDigits n = natDigits (n / 10) ++ [Char.ofNat (48 + n % 10)] := by
  have hlt : ¬ n < 10 := by omega
  have hdiv : n / 10 < n := Nat.div_lt_self (by omega) (by omega)
  conv_lhs => rw [natDigits, natDigitsAux]
  rw [if_neg hlt, natDigitsAux_acc]
  congr 1
  rw [natDigits]
  exact natDigitsAux_fuel n (n / 10) (by omega) (n / 10 + 1) (by omega)

theorem natDigits_digits : ∀ (n : Nat), ∀ c ∈ natDigits n, c.isDigit = true := by
  intro n
  induction n using Nat.strong_induction_on with
  | _ n ih =>
    by_cases h : n < 10
    · rw [natDigits_lt10 n h]
      intro c hc
      rcases List.mem_cons.mp hc with h1 | h2
      · subst h1; exact digit_isDigit n h
      · exact absurd h2 (List.not_mem_nil c)
    · rw [natDigits_ge10 n (by omega)]
      intro c hc
      rcases List.mem_append.mp hc with h1 | h2
      · exact ih (n / 10) (Nat.div_lt_self (by omega) (by omega)) c h1
      · rcases List.mem_cons.mp h2 with h3 | h4
        · subst h3; exact digit_isDigit (n % 10) (Nat.mod_lt _ (by omega))
        · exact absurd h4 (List.not_mem_nil c)

theorem natDigits_ne_nil (n : Nat) : natDigits n ≠ [] := by
  by_cases h : n < 10
  · rw [natDigits_lt10 n h]; simp
  · rw [natDigits_ge10 n (by omega)]; simp

theorem decVal_natDigits :
    ∀ (n : Nat), ∀ (a : Nat),
      decVal a (natDigits n) = a * 10 ^ (natDigits n).length + n := by
  intro n
  induction n using Nat.strong_induction_on with
  | _ n ih =>
    intro a
    by_cases h : n < 10
    · rw [natDigits_lt10 n h]
      simp only [decVal, List.foldl_cons, List.foldl_nil, List.length_cons,
        List.length_nil, pow_one, zero_add]
      rw [digit_val n h]
    · have h10 : 10 ≤ n := by omega
      rw [natDigits_ge10 n h10]
      simp only [decVal, List.foldl_append, List.foldl_cons, List.foldl_nil,
        List.length_append, List.length_cons, List.length_nil]
      have ihh := ih (n / 10) (Nat.div_lt_self (by omega) (by omega)) a
      simp only [decVal] at ihh
      rw [ihh, digit_val (n % 10) (Nat.mod_lt _ (by omega))]
      rw [pow_succ]
      generalize (10 : Nat) ^ (natDigits (n / 10)).length = M
      have hmod := Nat.div_add_mod n 10
      ring_nf
      omega

theorem pyNat_natDigits (n : Nat) : pyNat (natDigits n) = some n := by
  cases hnd : natDigits n with
  | nil => exact absurd hnd (natDigits_ne_nil n)
  | cons c rest =>
    have hdig : ∀ x ∈ natDigits n, x.isDigit = true := natDigits_digits n
    have hc : c.isDigit = true := hdig c (by rw [hnd]; exact List.mem_cons_self _ _)
    simp only [pyNat, if_pos hc]
    rw [pyDigitsCore_digits rest (digitVal c)
      (fun x hx => hdig x (by rw [hnd]; exact List.mem_cons_of_mem _ hx))]
    have h0 : decVal 0 (natDigits n) = n := by
      rw [decVal_natDigits n 0]; simp
    rw [hnd] at h0
    have hstep : decVal 0 (c :: rest) = decVal (digitVal c) rest := by
      simp [decVal]
    rw [← hstep, h0]

theorem pyStrInt_ne_nil (i : Int) : pyStrInt i ≠ [] := by
  unfold pyStrInt
  by_cases h : i < 0
  · simp [h]
  · simp [h, natDigits_ne_nil]

theorem pyStrInt_sepFree (i : Int) : ∀ c ∈ pyStrInt i, isSepChar c = false := by
  unfold pyStrInt
  by_cases h : i < 0
  · rw [if_pos h]
    intro c hc
    rcases List.mem_cons.mp hc with h1 | h2
    · subst h1; decide
    · exact (isDigit_facts c (natDigits_digits _ c h2)).2.2.2
  · rw [if_neg h]
    intro c hc
    exact (isDigit_facts c (natDigits_digits _ c hc)).2.2.2

theorem pyInt_pyStrInt (i : Int) : pyInt (pyStrInt i) = some i := by
  by_cases h : i < 0
  · rw [show pyStrInt i = '-' :: natDigits i.natAbs from by unfold pyStrInt; rw [if_pos h]]
    rw [pyInt.eq_def]
    simp only [if_pos rfl]
    rw [pyNat_natDigits]
    show some (-(i.natAbs : Int)) = some i
    congr 1
    omega
  · rw [show pyStrInt i = natDigits i.toNat from by unfold pyStrInt; rw [if_neg h]]
    cases hnd : natDigits i.toNat with
    | nil => exact absurd hnd (natDigits_ne_nil _)
    | cons c rest =>
      have hc : c.isDigit = true :=
        natDigits_digits _ c (by rw [hnd]; exact List.mem_cons_self _ _)
      obtain ⟨h1, h2, _, _⟩ := isDigit_facts c hc
      rw [pyInt.eq_def]
      simp only [if_neg h1, if_neg h2]
      rw [← hnd, pyNat_natDigits]
      show some ((i.toNat : Int)) = some i
      congr 1
      omega

/-! ## Helper lemmas about option resolution -/

theorem dictGet_filterMap_eq_none (options : List Str) (k : Str)
    (h : ¬ hasEqKey options k) :
    dictGet (options.filterMap (splitOnceL '=')) k = none := by
  unfold dictGet
  have hfind :
      (List.filterMap (splitOnceL '=') options).reverse.find?
        (fun pr => pr.1 == k) = none := by
    rw [List.find?_eq_none]
    intro pr hpr
    rw [List.mem_reverse] at hpr
    obtain ⟨o, ho, hsplit⟩ := List.mem_filterMap.mp hpr
    intro hbeq
    exact h ⟨o, ho, pr, hsplit, by simpa using hbeq⟩
  rw [hfind]
  rfl

/-! ## Claims -/

/-- C1: one call to refresh_mount_point performs exactly the action of
the reconciliation state table on the pair (serviceReachable,
pathMounted): mount is called iff the service is reachable and the path
is not mounted, unmount iff the service is unreachable and the path is
mounted, the two agreeing cases make no mount point controller call at
all, and in every case at most one call is made. -/
theorem c1_state_table :
    ∀ service_ok mounted : Bool,
      (MountCall.mount ∈ refresh_mount_point service_ok mounted ↔
        service_ok = true ∧ mounted = false) ∧
      (MountCall.unmount ∈ refresh_mount_point service_ok mounted ↔
        service_ok = false ∧ mounted = true) ∧
      (service_ok = mounted → refresh_mount_point service_ok mounted = []) ∧
      (refresh_mount_point service_ok mounted).length ≤ 1 := by
  decide

/-- C1 witness: at the concrete state (reachable, unmounted) the engine
issues the mount call. -/
theorem c1_state_table_witness :
    MountCall.mount ∈ refresh_mount_point true false :=
  (c1_state_table true false).1.mpr ⟨rfl, rfl⟩

/-- C2: evaluation at the failing input.  Two eligible entries reach the
pool workers, the first refresh raises MountError and the second
succeeds, yet the run's collected error list is empty and the aggregate
summary is not reported: Application.run calls pool.map_async without
registering refresh_error_callback and never reads the pool result, so
no failure is ever recorded -- contradicting the claim that each failure
is recorded and reported in a single aggregate failure at the end. -/
theorem c2_errors_never_reported :
    (Application.run_summary
        [{ name := ['h', ':', '/', 'a'], mount_point := ⟨['/', 'm', 'a']⟩,
           fs_type := nfsStr, mount_options := [stabbie_mount_option],
           dump_frequency := 0, fsck_pass_number := 0, kind := EntryKind.nfs,
           service := some (['h'], 0), remote_path := some ['/', 'a'] },
         { name := ['h', ':', '/', 'b'], mount_point := ⟨['/', 'm', 'b']⟩,
           fs_type := nfsStr, mount_options := [stabbie_mount_option],
           dump_frequency := 0, fsck_pass_number := 0, kind := EntryKind.nfs,
           service := some (['h'], 0), remote_path := some ['/', 'b'] }]
        (fun e => if e.name = ['h', ':', '/', 'a'] then Except.error PyErr.mountError
                  else Except.ok ())).per_entry =
      [({ name := ['h', ':', '/', 'a'], mount_point := ⟨['/', 'm', 'a']⟩,
          fs_type := nfsStr, mount_options := [stabbie_mount_option],
          dump_frequency := 0, fsck_pass_number := 0, kind := EntryKind.nfs,
          service := some (['h'], 0), remote_path := some ['/', 'a'] },
        Except.error PyErr.mountError),
       ({ name := ['h', ':', '/', 'b'], mount_point := ⟨['/', 'm', 'b']⟩,
          fs_type := nfsStr, mount_options := [stabbie_mount_option],
          dump_frequency := 0, fsck_pass_number := 0, kind := EntryKind.nfs,
          service := some (['h'], 0), remote_path := some ['/', 'b'] },
        Except.ok ())] ∧
    (Application.run_summary
        [{ name := ['h', ':', '/', 'a'], mount_point := ⟨['/', 'm', 'a']⟩,
           fs_type := nfsStr, mount_options := [stabbie_mount_option],
           dump_frequency := 0, fsck_pass_number := 0, kind := EntryKind.nfs,
           service := some (['h'], 0), remote_path := some ['/', 'a'] },
         { name := ['h', ':', '/', 'b'], mount_point := ⟨['/', 'm', 'b']⟩,
           fs_type := nfsStr, mount_options := [stabbie_mount_option],
           dump_frequency := 0, fsck_pass_number := 0, kind := EntryKind.nfs,
           service := some (['h'], 0), remote_path := some ['/', 'b'] }]
        (fun e => if e.name = ['h', ':', '/', 'a'] then Except.error PyErr.mountError
                  else Except.ok ())).refresh_errors = [] ∧
    (Application.run_summary
        [{ name := ['h', ':', '/', 'a'], mount_point := ⟨['/', 'm', 'a']⟩,
           fs_type := nfsStr, mount_options := [stabbie_mount_option],
           dump_frequency := 0, fsck_pass_number := 0, kind := EntryKind.nfs,
           service := some (['h'], 0), remote_path := some ['/', 'a'] },
         { name := ['h', ':', '/', 'b'], mount_point := ⟨['/', 'm', 'b']⟩,
           fs_type := nfsStr, mount_options := [stabbie_mount_option],
           dump_frequency := 0, fsck_pass_number := 0, kind := EntryKind.nfs,
           service := some (['h'], 0), remote_path := some ['/', 'b'] }]
        (fun e => if e.name = ['h', ':', '/', 'a'] then Except.error PyErr.mountError
                  else Except.ok ())).summary_reported = false := by
  refine ⟨?_, rfl, rfl⟩
  rfl

/-- C3: NFS option resolution considers only key=value options (split
once on the equals sign, other options ignored), derives version 3 when
no version option is present, derives port 2049 exactly when the derived
version is 4 and 0 otherwise in the absence of a port option, lets an
explicit port option override that default, and on the concrete inputs
of the claim yields port 2049 for version=4, port 9999 for
version=4,port=9999, and version 3 with port 0 for the empty option
list. -/
theorem c3_nfs_option_resolution :
    (∀ l1 l2 o, splitOnceL '=' o = none →
      NfsMountOptions.from_options (l1 ++ o :: l2) =
        NfsMountOptions.from_options (l1 ++ l2)) ∧
    (∀ options r, NfsMountOptions.from_options options = some r →
      ¬ hasEqKey options versionKey → r.version = 3) ∧
    (∀ options r, NfsMountOptions.from_options options = some r →
      ¬ hasEqKey options portKey →
      r.port = if r.version = 4 then 2049 else 0) ∧
    (∀ options r v n, NfsMountOptions.from_options options = some r →
      dictGet (options.filterMap (splitOnceL '=')) portKey = some v →
      pyInt v = some n → r.port = n) ∧
    NfsMountOptions.from_options [['v','e','r','s','i','o','n','=','4']] =
      some ⟨4, 2049⟩ ∧
    NfsMountOptions.from_options
        [['v','e','r','s','i','o','n','=','4'], ['p','o','r','t','=','9','9','9','9']] =
      some ⟨4, 9999⟩ ∧
    NfsMountOptions.from_options [] = some ⟨3, 0⟩ := by
  refine ⟨?_, ?_, ?_, ?_, by decide, by decide, by decide⟩
  · intro l1 l2 o h
    unfold NfsMountOptions.from_options
    rw [List.filterMap_append, List.filterMap_append, List.filterMap_cons_none h]
  · intro options r h hno
    have hd := dictGet_filterMap_eq_none options versionKey hno
    cases hp : dictGet (options.filterMap (splitOnceL '=')) portKey with
    | none =>
      simp only [NfsMountOptions.from_options, hd, hp, Option.some.injEq] at h
      rw [← h]
    | some v =>
      cases hv : pyInt v with
      | none =>
        simp only [NfsMountOptions.from_options, hd, hp, hv] at h
        exact Option.noConfusion h
      | some p =>
        simp only [NfsMountOptions.from_options, hd, hp, hv, Option.some.injEq] at h
        rw [← h]
  · intro options r h hno
    have hd := dictGet_filterMap_eq_none options portKey hno
    cases hv : dictGet (options.filterMap (splitOnceL '=')) versionKey with
    | none =>
      simp only [NfsMountOptions.from_options, hd, hv, Option.some.injEq] at h
      rw [← h]
    | some v =>
      cases hpv : pyInt v with
      | none =>
        simp only [NfsMountOptions.from_options, hd, hv, hpv] at h
        exact Option.noConfusion h
      | some ver =>
        simp only [NfsMountOptions.from_options, hd, hv, hpv, Option.some.injEq] at h
        rw [← h]
  · intro options r v n h hport hpyint
    cases hv : dictGet (options.filterMap (splitOnceL '=')) versionKey with
    | none =>
      simp only [NfsMountOptions.from_options, hv, hport, hpyint,
        Option.some.injEq] at h
      rw [← h]
    | some w =>
      cases hpw : pyInt w with
      | none =>
        simp only [NfsMountOptions.from_options, hv, hport, hpyint, hpw] at h
        exact Option.noConfusion h
      | some ver =>
        simp only [NfsMountOptions.from_options, hv, hport, hpyint, hpw,
          Option.some.injEq] at h
        rw [← h]

/-- C3 witness: the theorem applied at concrete inputs: an option
without an equals sign (here "ro") is ignored by the resolution. -/
theorem c3_nfs_option_resolution_witness :
    NfsMountOptions.from_options [['r', 'o']] = NfsMountOptions.from_options [] :=
  c3_nfs_option_resolution.1 [] [] ['r', 'o'] rfl

/-- C5: evaluation of the reachability check's exception boundary at
each probe outcome.  A completed TCP connection yields true; connection
errors and timeouts, which create_connection with all_errors raises
together as an ExceptionGroup, are caught by the check's only except
clause and yield false; but an address-resolution failure (socket
getaddrinfo raising, e.g. on DNS failure) is raised by create_connection
directly, outside the ExceptionGroup wrapping, so it is not caught and
propagates to the caller -- contradicting the claim that no exception of
any kind propagates out of the check. -/
theorem c5_exception_boundary :
    check_is_connectable_body ConnectOutcome.connected = Except.ok true ∧
    check_is_connectable_body ConnectOutcome.wrappedFailure = Except.ok false ∧
    check_is_connectable_body ConnectOutcome.resolutionFailure =
      Except.error PyErr.gaierror :=
  ⟨rfl, rfl, rfl⟩

/-- C6: evaluation at the failing input.  Interning by exact argument
pair does give one shared instance for an equal (host, port) and
distinct instances for the same host with different ports; but the
lru_cache of capacity one on check_is_connectable decorates the single
underlying function and is therefore shared by all Service instances, so
for two services A (host h, port 2049) and B (host h, port 9999) the
query sequence A, B, A evicts A's cached verdict at B's query and probes
A a second time -- three probes in all, contradicting the claim that A
is probed exactly once with subsequent queries answered from cache. -/
theorem c6_shared_cache_eviction :
    Service.new_cached [] (['h'], 2049) = (0, [((['h'], 2049), 0)]) ∧
    Service.new_cached [((['h'], 2049), 0)] (['h'], 2049) = (0, [((['h'], 2049), 0)]) ∧
    Service.new_cached [((['h'], 2049), 0)] (['h'], 9999) =
      (1, [((['h'], 2049), 0), ((['h'], 9999), 1)]) ∧
    (runConnectQueries (fun _ => false) ⟨none, []⟩
        [(['h'], 2049), (['h'], 9999), (['h'], 2049)]).probes =
      [(['h'], 2049), (['h'], 9999), (['h'], 2049)] := by
  refine ⟨rfl, ?_, ?_, ?_⟩ <;> decide

/-- C7: NfsFstabEntry.__post_init__ splits the entry name at its
right-most colon into the service host and the remote path, so names
that are literal IPv6 addresses followed by a path are tolerated; in
particular the claim's concrete name resolves to host 2001:db8::1 and
remote path /export. -/
theorem c7_rightmost_colon_split :
    (∀ (e : FstabEntry) (host rp : Str) (opts : NfsMountOptions),
      rsplitOnce ':' e.name = some (host, rp) →
      NfsMountOptions.from_options e.mount_options = some opts →
      nfs_post_init e =
        some { e with service := some (host, opts.port), remote_path := some rp } ∧
      e.name = host ++ ':' :: rp ∧ ':' ∉ rp) ∧
    (∀ name : Str, ':' ∈ name → (rsplitOnce ':' name).isSome = true) ∧
    rsplitOnce ':'
        ['2','0','0','1',':','d','b','8',':',':','1',':','/','e','x','p','o','r','t'] =
      some (['2','0','0','1',':','d','b','8',':',':','1'],
        ['/','e','x','p','o','r','t']) := by
  refine ⟨?_, rsplitOnce_isSome ':', by decide⟩
  intro e host rp opts hr hopts
  obtain ⟨he, hnot⟩ := rsplitOnce_eq ':' e.name host rp hr
  refine ⟨?_, he, hnot⟩
  unfold nfs_post_init
  rw [hr, hopts]

/-- C7 witness: the theorem applied to a concrete NFS entry named with a
literal IPv6 host: post-construction derivation stores the host and
remote path of the right-most colon split. -/
theorem c7_rightmost_colon_split_witness :
    nfs_post_init
        { name := ['2','0','0','1',':','d','b','8',':',':','1',':','/','e','x','p','o','r','t'],
          mount_point := ⟨['/', 'm']⟩, fs_type := nfsStr, mount_options := [],
          dump_frequency := 0, fsck_pass_number := 0, kind := EntryKind.nfs,
          service := none, remote_path := none } =
      some
        { name := ['2','0','0','1',':','d','b','8',':',':','1',':','/','e','x','p','o','r','t'],
          mount_point := ⟨['/', 'm']⟩, fs_type := nfsStr, mount_options := [],
          dump_frequency := 0, fsck_pass_number := 0, kind := EntryKind.nfs,
          service := some (['2','0','0','1',':','d','b','8',':',':','1'], 0),
          remote_path := some ['/','e','x','p','o','r','t'] } :=
  (c7_rightmost_colon_split.1
    { name := ['2','0','0','1',':','d','b','8',':',':','1',':','/','e','x','p','o','r','t'],
      mount_point := ⟨['/', 'm']⟩, fs_type := nfsStr, mount_options := [],
      dump_frequency := 0, fsck_pass_number := 0, kind := EntryKind.nfs,
      service := none, remote_path := none }
    ['2','0','0','1',':','d','b','8',':',':','1'] ['/','e','x','p','o','r','t']
    ⟨3, 0⟩ (by decide) rfl).1

/-- C8: a run acts only on eligible entries: every entry handed to the
per-entry refresh is remote and carries the x-stabbie marker option;
an entry lacking the marker or of generic kind is never refreshed, so no
mount, unmount, or reachability check is ever performed on its behalf;
and every eligible entry of the list is refreshed. -/
theorem c8_eligibility_filter :
    ∀ (entries : List FstabEntry) (conn mounted : FstabEntry → Bool),
      (∀ e acts, (e, acts) ∈ runTrace entries conn mounted →
        is_remote_instance e = true ∧ stabbie_mount_option ∈ e.mount_options) ∧
      (∀ e ∈ entries, fstab_entries_filter_key e = false →
        ∀ acts, (e, acts) ∉ runTrace entries conn mounted) ∧
      (∀ e ∈ entries, fstab_entries_filter_key e = true →
        (e, refresh_mount_point (conn e) (mounted e)) ∈ runTrace entries conn mounted) := by
  intro entries conn mounted
  refine ⟨?_, ?_, ?_⟩
  · intro e acts hmem
    obtain ⟨x, hx, hxe⟩ := List.mem_map.mp hmem
    obtain ⟨hxent, hxkey⟩ := List.mem_filter.mp hx
    have hex : x = e := congrArg Prod.fst hxe
    subst hex
    unfold fstab_entries_filter_key at hxkey
    rw [Bool.and_eq_true] at hxkey
    exact ⟨hxkey.1, by simpa using hxkey.2⟩
  · intro e hent hkey acts hmem
    obtain ⟨x, hx, hxe⟩ := List.mem_map.mp hmem
    obtain ⟨hxent, hxkey⟩ := List.mem_filter.mp hx
    have hex : x = e := congrArg Prod.fst hxe
    subst hex
    rw [hkey] at hxkey
    exact Bool.noConfusion hxkey
  · intro e hent hkey
    exact List.mem_map.mpr ⟨e, List.mem_filter.mpr ⟨hent, hkey⟩, rfl⟩

/-- C8 witness: the theorem applied to a concrete two-entry fstab: the
generic entry carrying the marker is not remote, so it is never handed
to refresh. -/
theorem c8_eligibility_filter_witness :
    ({ name := ['d'], mount_point := ⟨['/', 'd']⟩, fs_type := ['e','x','t','4'],
       mount_options := [stabbie_mount_option], dump_frequency := 0,
       fsck_pass_number := 0, kind := EntryKind.generic, service := none,
       remote_path := none }, ([] : List MountCall)) ∉
      runTrace
        [{ name := ['h', ':', '/', 'a'], mount_point := ⟨['/', 'm', 'a']⟩,
           fs_type := nfsStr, mount_options := [stabbie_mount_option],
           dump_frequency := 0, fsck_pass_number := 0, kind := EntryKind.nfs,
           service := some (['h'], 0), remote_path := some ['/', 'a'] },
         { name := ['d'], mount_point := ⟨['/', 'd']⟩, fs_type := ['e','x','t','4'],
           mount_options := [stabbie_mount_option], dump_frequency := 0,
           fsck_pass_number := 0, kind := EntryKind.generic, service := none,
           remote_path := none }]
        (fun _ => true) (fun _ => false) :=
  (c8_eligibility_filter
      [{ name := ['h', ':', '/', 'a'], mount_point := ⟨['/', 'm', 'a']⟩,
         fs_type := nfsStr, mount_options := [stabbie_mount_option],
         dump_frequency := 0, fsck_pass_number := 0, kind := EntryKind.nfs,
         service := some (['h'], 0), remote_path := some ['/', 'a'] },
       { name := ['d'], mount_point := ⟨['/', 'd']⟩, fs_type := ['e','x','t','4'],
         mount_options := [stabbie_mount_option], dump_frequency := 0,
         fsck_pass_number := 0, kind := EntryKind.generic, service := none,
         remote_path := none }]
      (fun _ => true) (fun _ => false)).2.1
    { name := ['d'], mount_point := ⟨['/', 'd']⟩, fs_type := ['e','x','t','4'],
      mount_options := [stabbie_mount_option], dump_frequency := 0,
      fsck_pass_number := 0, kind := EntryKind.generic, service := none,
      remote_path := none }
    (by decide) rfl []

/-- C4 counterexample: the cleaned line "server /mnt nfs" has all three
mandatory tokens and no dump-frequency or fsck-pass token, so by the
claim as stated parsing must succeed; but the builder dispatches to the
NFS entry class, whose post-construction step raises on the colon-free
name, and from_line fails. -/
theorem c4_counterexample :
    segmentsOf ['s','e','r','v','e','r',' ','/','m','n','t',' ','n','f','s'] =
      [['s','e','r','v','e','r'], ['/','m','n','t'], ['n','f','s']] ∧
    from_line ['s','e','r','v','e','r',' ','/','m','n','t',' ','n','f','s'] = none := by
  decide

/-- C10 counterexample: the line "srv /m nfs" has exactly the three
mandatory tokens, so by the claim as stated the parser must produce an
entry with empty options and zero numeric fields; instead parsing fails,
because the nfs post-construction step raises on the colon-free name. -/
theorem c10_counterexample :
    (segmentsOf ['s','r','v',' ','/','m',' ','n','f','s']).length = 3 ∧
    from_line ['s','r','v',' ','/','m',' ','n','f','s'] = none := by
  decide

/-- C10 (amended): for every line with exactly the three mandatory
tokens, provided the type-specific construction does not itself fail
(when the type token is nfs the name must contain a colon), the parser
produces an entry with an empty mount-option sequence, dump frequency 0
and fsck pass number 0; and NFS option resolution over the empty option
sequence succeeds with version 3 and port 0. -/
theorem c10_amended :
    (∀ (line n p t : Str), segmentsOf line = [n, p, t] →
      (t = nfsStr → ':' ∈ n) →
      ∃ e, from_line line = some e ∧ e.mount_options = [] ∧
        e.dump_frequency = 0 ∧ e.fsck_pass_number = 0) ∧
    NfsMountOptions.from_options [] = some ⟨3, 0⟩ := by
  refine ⟨?_, by decide⟩
  intro line n p t hs hcolon
  simp only [from_line, hs, dumpTok, fsckTok, intFieldOr0, optionsOfSegs]
  by_cases ht : t = nfsStr
  · rw [if_pos ht]
    have hcol := hcolon ht
    have hsome := rsplitOnce_isSome ':' n hcol
    cases hr : rsplitOnce ':' n with
    | none => rw [hr] at hsome; exact Bool.noConfusion hsome
    | some pr =>
      obtain ⟨host, rp⟩ := pr
      have hfo : NfsMountOptions.from_options [] = some ⟨3, 0⟩ := by decide
      simp only [nfs_post_init, hr, hfo]
      exact ⟨_, rfl, rfl, rfl, rfl⟩
  · rw [if_neg ht]
    exact ⟨_, rfl, rfl, rfl, rfl⟩

/-- C10 witness: the theorem applied to the concrete three-token NFS
line "h:/e /m nfs": the parsed entry has empty options and zero dump and
fsck fields. -/
theorem c10_amended_witness :
    ∃ e, from_line ['h', ':', '/', 'e', ' ', '/', 'm', ' ', 'n', 'f', 's'] = some e ∧
      e.mount_options = [] ∧ e.dump_frequency = 0 ∧ e.fsck_pass_number = 0 :=
  c10_amended.1 ['h', ':', '/', 'e', ' ', '/', 'm', ' ', 'n', 'f', 's']
    ['h', ':', '/', 'e'] ['/', 'm'] nfsStr (by decide) (fun _ => by decide)

/-- Helper for the parser failure characterization: with the three
mandatory tokens and both numeric fields already in hand, the remaining
failure source of from_line is the nfs dispatch: the post-construction
step fails exactly when the name has no colon or option resolution
fails. -/
theorem from_line_nfs_tail (n p t : Str) (mo : List Str) (dv fv : Int) :
    ((if t = nfsStr then
        nfs_post_init
          { name := n, mount_point := ⟨p⟩, fs_type := t, mount_options := mo,
            dump_frequency := dv, fsck_pass_number := fv,
            kind := if t = nfsStr then EntryKind.nfs else EntryKind.generic,
            service := none, remote_path := none }
      else
        some
          { name := n, mount_point := ⟨p⟩, fs_type := t, mount_options := mo,
            dump_frequency := dv, fsck_pass_number := fv,
            kind := if t = nfsStr then EntryKind.nfs else EntryKind.generic,
            service := none, remote_path := none }) = none) ↔
    (t = nfsStr ∧ (':' ∉ n ∨ NfsMountOptions.from_options mo = none)) := by
  by_cases ht : t = nfsStr
  · rw [if_pos ht]
    unfold nfs_post_init
    dsimp only
    cases hr : rsplitOnce ':' n with
    | none =>
      have hnot := rsplitOnce_none ':' n hr
      simp [ht, hnot]
    | some pr =>
      obtain ⟨host, rp⟩ := pr
      have hcol : ':' ∈ n := by
        obtain ⟨he, _⟩ := rsplitOnce_eq ':' n host rp hr
        rw [he]
        simp
      cases ho : NfsMountOptions.from_options mo with
      | none => simp [ht, ho]
      | some o => simp [ht, ho, hcol]
  · rw [if_neg ht]
    simp [ht]

/-- C4 (amended): for every cleaned table line, parsing fails with a
surfaced error exactly when fewer than the three mandatory tokens are
present after tokenization, or the dump-frequency or fsck-pass token is
present but not numeric, or the filesystem type token is nfs and either
the name token contains no colon or NFS option resolution over the
option list fails; otherwise it succeeds and produces one entry. -/
theorem c4_amended :
    ∀ line : Str, from_line line = none ↔ parseFailureSpec (segmentsOf line) := by
  intro line
  rw [from_line.eq_def]
  cases hs : segmentsOf line with
  | nil => simp [parseFailureSpec]
  | cons n rest1 =>
    cases rest1 with
    | nil => simp [parseFailureSpec]
    | cons p rest2 =>
      cases rest2 with
      | nil => simp [parseFailureSpec]
      | cons t optionals =>
        cases optionals with
        | nil =>
          simp only [dumpTok, fsckTok, intFieldOr0, optionsOfSegs, parseFailureSpec]
          rw [from_line_nfs_tail]
          have hfo : NfsMountOptions.from_options [] = some ⟨3, 0⟩ := by decide
          simp [hfo]
        | cons o rest3 =>
          cases rest3 with
          | nil =>
            simp only [dumpTok, fsckTok, intFieldOr0, optionsOfSegs, parseFailureSpec]
            rw [from_line_nfs_tail]
            simp
          | cons d rest4 =>
            cases rest4 with
            | nil =>
              simp only [dumpTok, fsckTok, intFieldOr0, optionsOfSegs, parseFailureSpec]
              cases hd : pyInt d with
              | none => simp [hd]
              | some dv =>
                simp only [hd]
                rw [from_line_nfs_tail]
                simp [hd]
            | cons f rest5 =>
              simp only [dumpTok, fsckTok, intFieldOr0, optionsOfSegs, parseFailureSpec]
              cases hd : pyInt d with
              | none => simp [hd]
              | some dv =>
                cases hf : pyInt f with
                | none => simp [hd, hf]
                | some fv =>
                  simp only [hd, hf]
                  rw [from_line_nfs_tail]
                  simp [hd, hf]

/-- C4 witness: the theorem applied at the concrete one-token line "a":
parsing fails, and the failure condition holds because fewer than three
tokens are present. -/
theorem c4_amended_witness :
    parseFailureSpec (segmentsOf ['a']) :=
  (c4_amended ['a']).mp (by decide)

/-- C9 counterexample: the valid three-token line "a /m ext4" parses to
an entry with an empty option sequence, but its serialization joins an
empty options field between two single spaces, so re-parsing collapses
the double space and reads the dump-frequency token "0" as the option
list: the round-tripped entry has option set containing "0" instead of
the original empty option set. -/
theorem c9_counterexample :
    ((from_line ['a', ' ', '/', 'm', ' ', 'e', 'x', 't', '4']).map
        (fun e => e.mount_options)) = some [] ∧
    ((from_line ['a', ' ', '/', 'm', ' ', 'e', 'x', 't', '4']).bind
        (fun e => from_line e.toLine)).map (fun e => e.mount_options) =
      some [['0']] := by
  decide

/-- Helper: the structured fields of an entry produced by from_line on a
line with at least four tokens, together with the facts about the nfs
derivation that a successful parse guarantees. -/
theorem from_line_inv (line : Str) (e : FstabEntry) (n p t o : Str) (rest : List Str)
    (hline : from_line line = some e)
    (hs : segmentsOf line = n :: p :: t :: o :: rest) :
    e.name = n ∧ e.mount_point = ⟨p⟩ ∧ e.fs_type = t ∧
    e.mount_options = pySplitChar ',' o ∧
    (t = nfsStr → (rsplitOnce ':' e.name).isSome = true ∧
      (NfsMountOptions.from_options e.mount_options).isSome = true) := by
  rw [from_line.eq_def, hs] at hline
  dsimp only at hline
  simp only [optionsOfSegs] at hline
  cases hdd : intFieldOr0 (dumpTok (o :: rest)) with
  | none => rw [hdd] at hline; simp at hline
  | some dd =>
    rw [hdd] at hline
    cases hff : intFieldOr0 (fsckTok (o :: rest)) with
    | none => rw [hff] at hline; simp at hline
    | some ff =>
      rw [hff] at hline
      by_cases ht : t = nfsStr
      · rw [show (match (some dd : Option Int), (some ff : Option Int) with
          | (some dump_frequency), (some fsck_pass_number) =>
            (if t = nfsStr then
              nfs_post_init
                { name := n, mount_point := ⟨p⟩, fs_type := t,
                  mount_options := pySplitChar ',' o,
                  dump_frequency := dump_frequency,
                  fsck_pass_number := fsck_pass_number,
                  kind := if t = nfsStr then EntryKind.nfs else EntryKind.generic,
                  service := none, remote_path := none }
            else
              some
                { name := n, mount_point := ⟨p⟩, fs_type := t,
                  mount_options := pySplitChar ',' o,
                  dump_frequency := dump_frequency,
                  fsck_pass_number := fsck_pass_number,
                  kind := if t = nfsStr then EntryKind.nfs else EntryKind.generic,
                  service := none, remote_path := none })
          | _, _ => none) =
          (if t = nfsStr then
            nfs_post_init
              { name := n, mount_point := ⟨p⟩, fs_type := t,
                mount_options := pySplitChar ',' o, dump_frequency := dd,
                fsck_pass_number := ff,
                kind := if t = nfsStr then EntryKind.nfs else EntryKind.generic,
                service := none, remote_path := none }
          else
            some
              { name := n, mount_point := ⟨p⟩, fs_type := t,
                mount_options := pySplitChar ',' o, dump_frequency := dd,
                fsck_pass_number := ff,
                kind := if t = nfsStr then EntryKind.nfs else EntryKind.generic,
                service := none, remote_path := none }) from rfl] at hline
        rw [if_pos ht] at hline
        unfold nfs_post_init at hline
        dsimp only at hline
        cases hr : rsplitOnce ':' n with
        | none => rw [hr] at hline; simp at hline
        | some pr =>
          obtain ⟨host, rp⟩ := pr
          rw [hr] at hline
          cases ho2 : NfsMountOptions.from_options (pySplitChar ',' o) with
          | none => rw [ho2] at hline; simp at hline
          | some opts =>
            rw [ho2] at hline
            dsimp only at hline
            rw [Option.some.injEq] at hline
            subst hline
            refine ⟨rfl, rfl, rfl, rfl, fun _ => ⟨?_, ?_⟩⟩
            · show (rsplitOnce ':' n).isSome = true
              rw [hr]; rfl
            · show (NfsMountOptions.from_options (pySplitChar ',' o)).isSome = true
              rw [ho2]; rfl
      · rw [show (match (some dd : Option Int), (some ff : Option Int) with
          | (some dump_frequency), (some fsck_pass_number) =>
            (if t = nfsStr then
              nfs_post_init
                { name := n, mount_point := ⟨p⟩, fs_type := t,
                  mount_options := pySplitChar ',' o,
                  dump_frequency := dump_frequency,
                  fsck_pass_number := fsck_pass_number,
                  kind := if t = nfsStr then EntryKind.nfs else EntryKind.generic,
                  service := none, remote_path := none }
            else
              some
                { name := n, mount_point := ⟨p⟩, fs_type := t,
                  mount_options := pySplitChar ',' o,
                  dump_frequency := dump_frequency,
                  fsck_pass_number := fsck_pass_number,
                  kind := if t = nfsStr then EntryKind.nfs else EntryKind.generic,
                  service := none, remote_path := none })
          | _, _ => none) =
          (if t = nfsStr then
            nfs_post_init
              { name := n, mount_point := ⟨p⟩, fs_type := t,
                mount_options := pySplitChar ',' o, dump_frequency := dd,
                fsck_pass_number := ff,
                kind := if t = nfsStr then EntryKind.nfs else EntryKind.generic,
                service := none, remote_path := none }
          else
            some
              { name := n, mount_point := ⟨p⟩, fs_type := t,
                mount_options := pySplitChar ',' o, dump_frequency := dd,
                fsck_pass_number := ff,
                kind := if t = nfsStr then EntryKind.nfs else EntryKind.generic,
                service := none, remote_path := none }) from rfl] at hline
        rw [if_neg ht] at hline
        rw [Option.some.injEq] at hline
        subst hline
        exact ⟨rfl, rfl, rfl, rfl, fun h => absurd h ht⟩

/-- Helper: serializing an entry whose fields came from a parsed line
with an options token and re-parsing the result succeeds and preserves
the option sequence, dump frequency and fsck pass number. -/
theorem from_line_toLine (e : FstabEntry) (o : Str)
    (hname : e.name ≠ [] ∧ ∀ c ∈ e.name, isSepChar c = false)
    (hpath : e.mount_point.path ≠ [] ∧ ∀ c ∈ e.mount_point.path, isSepChar c = false)
    (htype : e.fs_type ≠ [] ∧ ∀ c ∈ e.fs_type, isSepChar c = false)
    (ho : o ≠ [] ∧ ∀ c ∈ o, isSepChar c = false)
    (hmo : e.mount_options = pySplitChar ',' o)
    (hnfs : e.fs_type = nfsStr →
      (rsplitOnce ':' e.name).isSome = true ∧
      (NfsMountOptions.from_options e.mount_options).isSome = true) :
    ∃ e', from_line e.toLine = some e' ∧
      e'.mount_options = e.mount_options ∧
      e'.dump_frequency = e.dump_frequency ∧
      e'.fsck_pass_number = e.fsck_pass_number := by
  have hjoin : joinSep ',' e.mount_options = o := by
    rw [hmo]; exact joinSep_pySplitChar ',' o
  have hsegs : segmentsOf e.toLine =
      [e.name, e.mount_point.path, e.fs_type, o,
       pyStrInt e.dump_frequency, pyStrInt e.fsck_pass_number] := by
    unfold FstabEntry.toLine
    rw [hjoin]
    apply segmentsOf_joinSep _ (by simp)
    intro f hf
    simp only [List.mem_cons, List.not_mem_nil, or_false] at hf
    rcases hf with rfl | rfl | rfl | rfl | rfl | rfl
    · exact hname
    · exact hpath
    · exact htype
    · exact ho
    · exact ⟨pyStrInt_ne_nil _, pyStrInt_sepFree _⟩
    · exact ⟨pyStrInt_ne_nil _, pyStrInt_sepFree _⟩
  rw [from_line.eq_def, hsegs]
  dsimp only
  simp only [optionsOfSegs, dumpTok, fsckTok, intFieldOr0, pyInt_pyStrInt]
  by_cases ht : e.fs_type = nfsStr
  · rw [if_pos ht]
    obtain ⟨hsome1, hsome2⟩ := hnfs ht
    cases hr : rsplitOnce ':' e.name with
    | none => rw [hr] at hsome1; exact Bool.noConfusion hsome1
    | some pr =>
      obtain ⟨host, rp⟩ := pr
      rw [← hmo] at *
      cases ho2 : NfsMountOptions.from_options e.mount_options with
      | none => rw [ho2] at hsome2; exact Bool.noConfusion hsome2
      | some opts =>
        unfold nfs_post_init
        dsimp only
        rw [hr, ho2]
        exact ⟨_, rfl, rfl, rfl, rfl⟩
  · rw [if_neg ht]
    rw [← hmo]
    exact ⟨_, rfl, rfl, rfl, rfl⟩

/-- C9 (amended): for every valid table line carrying at least one
optional token (so at least four tokens), parsing, re-serializing the
entry, and parsing the serialization again yields an entry with the same
option set, the same dump frequency and the same fsck pass number; for a
line with only the three mandatory tokens the serialized empty options
field collapses between its surrounding spaces, and the re-parsed entry
reads the serialized dump-frequency token as its option list instead. -/
theorem c9_amended :
    ∀ (line : Str) (e : FstabEntry), from_line line = some e →
      4 ≤ (segmentsOf line).length →
      ∃ e', from_line e.toLine = some e' ∧
        e'.mount_options = e.mount_options ∧
        e'.dump_frequency = e.dump_frequency ∧
        e'.fsck_pass_number = e.fsck_pass_number := by
  intro line e hline hlen
  cases hs : segmentsOf line with
  | nil => rw [hs] at hlen; simp at hlen
  | cons n rest1 =>
    cases rest1 with
    | nil => rw [hs] at hlen; simp at hlen
    | cons p rest2 =>
      cases rest2 with
      | nil => rw [hs] at hlen; simp at hlen
      | cons t rest3 =>
        cases rest3 with
        | nil => rw [hs] at hlen; simp at hlen
        | cons o rest =>
          obtain ⟨hn, hp, ht, hmo, hnfs⟩ := from_line_inv line e n p t o rest hline hs
          have hmemn : n ∈ segmentsOf line := by rw [hs]; simp
          have hmemp : p ∈ segmentsOf line := by rw [hs]; simp
          have hmemt : t ∈ segmentsOf line := by rw [hs]; simp
          have hmemo : o ∈ segmentsOf line := by rw [hs]; simp
          refine from_line_toLine e o ?_ ?_ ?_ ?_ hmo ?_
          · rw [hn]; exact mem_segmentsOf line n hmemn
          · rw [hp]; exact mem_segmentsOf line p hmemp
          · rw [ht]; exact mem_segmentsOf line t hmemt
          · exact mem_segmentsOf line o hmemo
          · rw [ht]; exact hnfs

/-- C9 witness: the theorem applied to the concrete four-token line
"a /m ext4 rw": the re-parsed serialization has the same option set and
numeric fields. -/
theorem c9_amended_witness :
    ∃ e', from_line
        (FstabEntry.toLine
          { name := ['a'], mount_point := ⟨['/', 'm']⟩,
            fs_type := ['e', 'x', 't', '4'], mount_options := [['r', 'w']],
            dump_frequency := 0, fsck_pass_number := 0,
            kind := EntryKind.generic, service := none, remote_path := none }) =
        some e' ∧
      e'.mount_options = [['r', 'w']] ∧
      e'.dump_frequency = 0 ∧ e'.fsck_pass_number = 0 :=
  c9_amended ['a', ' ', '/', 'm', ' ', 'e', 'x', 't', '4', ' ', 'r', 'w']
    { name := ['a'], mount_point := ⟨['/', 'm']⟩,
      fs_type := ['e', 'x', 't', '4'], mount_options := [['r', 'w']],
      dump_frequency := 0, fsck_pass_number := 0,
      kind := EntryKind.generic, service := none, remote_path := none }
    (by decide) (by decide)
